import Mathlib

/-!
Verification of the reference classifier and PR-fetch resolver of the
worktree-manager repository.

The classifier is embedded from the `runAdd` command handler together with
`normalizeRemoteBranch` (command source file of the `add` command), and the
resolver from `internal/pr/pr.go` (`FetchPR`, `fetchPRWithGH`, `getRepoSlug`,
`fetchPRWithRefspec`).  External process invocations (the `gh` tool lookup,
`git remote get-url origin`, the metadata query together with its JSON
decoding, and `git fetch origin <refspec>`) are modelled as a deterministic
environment record; every piece of string logic of the repository itself is
translated directly.
-/

namespace WTM

/-- Kind of a classified user reference, following the specification data
model: either a local or remote branch (with a local name and an optional
start point) or a pull request (with a number and a custom directory hint). -/
inductive ParsedReference where
  | localOrRemoteBranch (localName : String) (startPoint : String)
  | pullRequest (number : Nat) (customDirectoryHint : String)
deriving DecidableEq, Repr

/-- Error raised by the classifier.  The Go code raises exactly one error in
this logic: the message beginning with the words invalid PR syntax, raised
when a token starting with the reserved characters pr/ fails to match the
pattern.  There is no separate error for an empty reference in the code. -/
inductive ClassifyError where
  | invalidPR
deriving DecidableEq, Repr

/-- Embedding of `normalizeRemoteBranch` from the add command: when the
reference starts with the literal characters origin/ the function returns the
suffix after that prefix paired with the whole reference as start point;
otherwise it returns the reference verbatim with an empty start point.
Go `strings.HasPrefix` and `strings.TrimPrefix` on the ASCII prefix origin/
coincide with list operations on the character list of the string. -/
def normalizeRemoteBranch (branchRef : String) : String × String :=
  if "origin/".data.isPrefixOf branchRef.data then
    (String.mk (branchRef.data.drop "origin/".length), branchRef)
  else
    (branchRef, "")

/-- Numeric value of a list of decimal digit characters, accumulated left to
right the way `strconv.Atoi` accumulates. -/
def digitsVal (a : Nat) (ds : List Char) : Nat :=
  ds.foldl (fun acc c => 10 * acc + (c.toNat - 48)) a

/-- Embedding of `strconv.Atoi` on a non-empty all-digit string on a 64-bit
platform with the error ignored, exactly as the add command ignores it: the
value is clamped to the largest signed 64-bit integer on range overflow,
because `strconv.ParseInt` returns that clamped value together with a range
error and the code discards the error. -/
def goAtoi (ds : List Char) : Nat :=
  let v := digitsVal 0 ds
  if v ≤ 9223372036854775807 then v else 9223372036854775807

/-- Embedding of the submatch extraction of the Go regular expression
`pr/(digits)(/(rest))?` anchored at both ends, applied to the characters after
the three characters pr/.  In the RE2 dialect used by Go, the digit class is
the ASCII digits and the dot does not match a newline, so the optional rest
group is a non-empty newline-free character list.  A match forces the digit
group to be the maximal leading digit run, because the character after the
digit group must be a slash or the end of the text.  Returns the digit group
and the rest group (empty when the optional group is absent), or `none` when
the expression does not match, in which case the add command raises the
invalid PR syntax error. -/
def prParse (cs : List Char) : Option (List Char × List Char) :=
  let ds := cs.takeWhile Char.isDigit
  let rest := cs.dropWhile Char.isDigit
  if ds.isEmpty then none
  else
    match rest with
    | [] => some (ds, [])
    | c :: r =>
      if c = '/' ∧ r ≠ [] ∧ '\n' ∉ r then some (ds, r) else none

/-- Embedding of the reference classification performed by the add command on
a single reference token: a token starting with pr/ must match the pull
request pattern (otherwise the invalid PR syntax error is raised), its digits
are converted with `strconv.Atoi` ignoring the error, and the optional rest
group becomes the custom directory hint; any other token is decomposed by
`normalizeRemoteBranch` into a local name and an optional start point.  The
code performs no emptiness check on the token, so the empty string flows
through the default branch. -/
def classify (ref : String) : Except ClassifyError ParsedReference :=
  if "pr/".data.isPrefixOf ref.data then
    match prParse (ref.data.drop 3) with
    | none => .error .invalidPR
    | some (ds, hint) => .ok (.pullRequest (goAtoi ds) (String.mk hint))
  else
    let p := normalizeRemoteBranch ref
    .ok (.localOrRemoteBranch p.1 p.2)

/-- Outcome of one invocation of git fetch origin with a given refspec: either
success, or failure carrying the combined diagnostic output of the command. -/
inductive FetchOutcome where
  | success
  | failure (output : String)
deriving DecidableEq, Repr

/-- Deterministic model of the external world seen by the resolver during one
resolution call: whether the gh tool is discoverable on the execution path,
the trimmed-later raw stdout of git remote get-url origin (`none` when that
command fails), the head branch name extracted from the metadata query for a
PR number and repository slug (`none` when the query or its JSON decoding
fails), and the outcome of git fetch origin keyed by the refspec string. -/
structure Env where
  ghOnPath : Bool
  remoteURL : Option String
  prHead : Nat → String → Option String
  fetch : String → FetchOutcome

/-- Character class trimmed by `strings.TrimSpace`, namely `unicode.IsSpace`:
the Unicode White_Space property, whose code points are U+0009 to U+000D,
U+0020, U+0085, U+00A0, U+1680, U+2000 to U+200A, U+2028, U+2029, U+202F,
U+205F and U+3000, matching the range table of the Go unicode package. -/
def goIsSpace (c : Char) : Bool :=
  (9 ≤ c.val && c.val ≤ 13) || c.val = 32 || c.val = 133 || c.val = 160 ||
    c.val = 5760 || (8192 ≤ c.val && c.val ≤ 8202) || c.val = 8232 ||
    c.val = 8233 || c.val = 8239 || c.val = 8287 || c.val = 12288

/-- Embedding of `strings.TrimSpace`: drop the space characters from both ends
of the string. -/
def goTrimSpace (s : String) : String :=
  String.mk (((s.data.dropWhile goIsSpace).reverse.dropWhile goIsSpace).reverse)

/-- Embedding of `strings.TrimSuffix`: remove one occurrence of the suffix
when present, and return the string unchanged otherwise. -/
def strTrimSuffix (s suf : String) : String :=
  if suf.data.isSuffixOf s.data then
    String.mk (s.data.take (s.data.length - suf.data.length))
  else s

/-- Prefix dispatch of `getRepoSlug` from internal/pr/pr.go, applied to the
already trimmed URL: strip one of the three recognized GitHub prefixes and
return the remainder verbatim; any other URL is an error carrying the
trimmed URL.  The three prefixes have lengths 15, 19 and 18, matching the
`strings.TrimPrefix` calls of the code. -/
def slugChain (u : String) : Except String String :=
  if "git@github.com:".data.isPrefixOf u.data then
    .ok (String.mk (u.data.drop 15))
  else if "https://github.com/".data.isPrefixOf u.data then
    .ok (String.mk (u.data.drop 19))
  else if "http://github.com/".data.isPrefixOf u.data then
    .ok (String.mk (u.data.drop 18))
  else
    .error ("unsupported remote URL format: " ++ u)

/-- Slug computation of `getRepoSlug` on the raw output of the remote URL
query: trim whitespace, remove one trailing .git, then dispatch on the
recognized prefixes. -/
def repoSlugOfURL (url : String) : Except String String :=
  slugChain (strTrimSuffix (goTrimSpace url) ".git")

/-- Embedding of `getRepoSlug` from internal/pr/pr.go: read the origin remote
URL and compute the slug from it; a failing remote URL query is an error. -/
def getRepoSlug (env : Env) : Except String String :=
  match env.remoteURL with
  | none => .error "failed to get remote URL"
  | some out => repoSlugOfURL out

/-- Embedding of `fetchPRWithGH` from internal/pr/pr.go: fail when the gh tool
is not on the path; resolve the repository slug; query the PR metadata scoped
to that slug and extract the head branch name (the query and its JSON
decoding are one environment call, both failure modes advance the tier); an
empty extracted name is a failure; finally fetch the refspec built from the
actual head branch name, not from the caller-supplied branch name, and on
success return that actual head branch name.  The caller-supplied
`branchName` parameter is accepted and never used, exactly as in the code. -/
def fetchPRWithGH (env : Env) (prNumber : Nat) (branchName : String) :
    Except String String :=
  if env.ghOnPath then
    match getRepoSlug env with
    | .error e => .error ("failed to determine repository: " ++ e)
    | .ok repoSlug =>
      match env.prHead prNumber repoSlug with
      | none => .error "gh pr view failed or PR info unparsable"
      | some actualBranch =>
        if actualBranch = "" then .error "PR metadata missing headRefName"
        else
          match env.fetch ("pull/" ++ Nat.repr prNumber ++ "/head:" ++ actualBranch) with
          | .failure o => .error ("git fetch failed: " ++ o)
          | .success => .ok actualBranch
  else .error "gh CLI not found"

/-- Primary refspec tried by the fallback tier, built with the
caller-supplied branch name. -/
def primaryRefspec (prNumber : Nat) (branchName : String) : String :=
  "pull/" ++ Nat.repr prNumber ++ "/head:" ++ branchName

/-- Alternate force-qualified refspec tried when the primary form fails. -/
def alternateRefspec (prNumber : Nat) (branchName : String) : String :=
  "+refs/pull/" ++ Nat.repr prNumber ++ "/head:refs/heads/" ++ branchName

/-- Embedding of `fetchPRWithRefspec` from internal/pr/pr.go: fetch the
primary refspec; on failure retry with the alternate force-qualified form; on
a second failure return the terminal error carrying the combined output of
the second fetch invocation.  On either success the caller-supplied branch
name is returned. -/
def fetchPRWithRefspec (env : Env) (prNumber : Nat) (branchName : String) :
    Except String String :=
  match env.fetch (primaryRefspec prNumber branchName) with
  | .success => .ok branchName
  | .failure _ =>
    match env.fetch (alternateRefspec prNumber branchName) with
    | .success => .ok branchName
    | .failure o => .error ("failed to fetch PR: " ++ o)

/-- Embedding of `FetchPR` from internal/pr/pr.go: try the gh tier first and
return its branch name on success; on any error of that tier fall through to
the refspec tier (the middle API tier of the comment is not implemented in
the code). -/
def FetchPR (env : Env) (prNumber : Nat) (branchName : String) :
    Except String String :=
  match fetchPRWithGH env prNumber branchName with
  | .ok b => .ok b
  | .error _ => fetchPRWithRefspec env prNumber branchName

/-- Decimal digit character for a value below ten, as used when rendering a
number in the statements about pull request tokens. -/
def digitChar (k : Nat) : Char :=
  if k = 0 then '0' else if k = 1 then '1' else if k = 2 then '2'
  else if k = 3 then '3' else if k = 4 then '4' else if k = 5 then '5'
  else if k = 6 then '6' else if k = 7 then '7' else if k = 8 then '8'
  else '9'

/-- Accumulator form of decimal rendering with explicit structural fuel:
prepend the digits of the number to the accumulator, least significant digit
first into the accumulator.  Any fuel strictly above the number suffices and
the lemmas below all carry that bound. -/
def natDecimalFuel : Nat → Nat → List Char → List Char
  | 0, _, acc => acc
  | fuel + 1, n, acc =>
    if n < 10 then digitChar (n % 10) :: acc
    else natDecimalFuel fuel (n / 10) (digitChar (n % 10) :: acc)

/-- Standard decimal rendering of a natural number, used to state the claims
that quantify over every positive integer appearing inside a token.  The
theorems below certify it: every produced character is an ASCII digit and the
digit value round-trips to the number. -/
def natDecimal (n : Nat) : String :=
  String.mk (natDecimalFuel (n + 1) n [])

/-- Specification-level shape predicate for the claim about repository slug
resolution: the URL consists of one of the recognized prefixes followed by a
non-empty slash-free owner, a slash, a non-empty slash-free repository name,
and an optional trailing .git. -/
def slugShape (pre url : String) : Prop :=
  pre.data.isPrefixOf url.data = true ∧
  ∃ owner repo : List Char, owner ≠ [] ∧ repo ≠ [] ∧
    '/' ∉ owner ∧ '/' ∉ repo ∧
    (url.data.drop pre.data.length = owner ++ '/' :: repo ∨
     url.data.drop pre.data.length = owner ++ '/' :: repo ++ ".git".data)

/-- Disjunction of the three recognized GitHub remote URL shapes. -/
def githubShape (url : String) : Prop :=
  slugShape "git@github.com:" url ∨ slugShape "https://github.com/" url ∨
    slugShape "http://github.com/" url

/-- Environment in which the gh metadata tier succeeds for PR 42 with a head
branch name different from any directory hint, used as a concrete witness. -/
def envGhOk : Env where
  ghOnPath := true
  remoteURL := some "git@github.com:acme/widgets.git"
  prHead := fun n slug =>
    if n == 42 && slug == "acme/widgets" then some "feature/contributor-fix"
    else none
  fetch := fun r =>
    if r == "pull/42/head:feature/contributor-fix" then .success
    else .failure "fatal: refspec rejected"

/-- Environment in which the gh tool is absent and the primary refspec fetch
succeeds, used as a concrete witness. -/
def envRefspecOk : Env where
  ghOnPath := false
  remoteURL := none
  prHead := fun _ _ => none
  fetch := fun r => if r == "pull/42/head:pr-42" then .success else .failure "no such ref"

/-- Environment in which every tier fails, used as a concrete witness for the
terminal error characterization. -/
def envAllFail : Env where
  ghOnPath := false
  remoteURL := none
  prHead := fun _ _ => none
  fetch := fun _ => .failure "fatal: could not read from remote repository"

/-- Environment whose origin remote URL is well formed, used as a concrete
witness for slug resolution. -/
def envSlugOk : Env where
  ghOnPath := true
  remoteURL := some "https://github.com/octocat/hello.git"
  prHead := fun _ _ => none
  fetch := fun _ => .failure ""

/-- Environment whose origin remote URL starts with a recognized prefix but
is not of the owner-slash-repository shape, used as the concrete
counterexample for the slug resolution claim. -/
def envSlugDeep : Env where
  ghOnPath := true
  remoteURL := some "https://github.com/a/b/c"
  prHead := fun _ _ => none
  fetch := fun _ => .failure ""

/-! Helper lemmas about list prefixes, suffixes and scanning. -/

theorem isPrefixOf_append_self (l t : List Char) : l.isPrefixOf (l ++ t) = true := by
  induction l with
  | nil => simp [List.isPrefixOf]
  | cons a as ih => simp [List.isPrefixOf, ih]

theorem isPrefixOf_cons_ne {a b : Char} (h : (a == b) = false) (l₁ l₂ : List Char) :
    (a :: l₁).isPrefixOf (b :: l₂) = false := by
  simp [List.isPrefixOf, h]

theorem isSuffixOf_append_self (l t : List Char) : l.isSuffixOf (t ++ l) = true := by
  rw [List.isSuffixOf, List.reverse_append]
  exact isPrefixOf_append_self _ _

theorem takeWhile_all {p : Char → Bool} {l : List Char}
    (h : ∀ c ∈ l, p c = true) : l.takeWhile p = l := by
  induction l with
  | nil => rfl
  | cons a as ih =>
    rw [List.takeWhile_cons, h a (by simp)]
    simp only [if_true]
    rw [ih (fun c hc => h c (by simp [hc]))]

theorem dropWhile_all {p : Char → Bool} {l : List Char}
    (h : ∀ c ∈ l, p c = true) : l.dropWhile p = [] := by
  induction l with
  | nil => rfl
  | cons a as ih =>
    rw [List.dropWhile_cons, h a (by simp)]
    simp only [if_true]
    exact ih (fun c hc => h c (by simp [hc]))

theorem takeWhile_append_all {p : Char → Bool} {l₁ : List Char}
    (h : ∀ c ∈ l₁, p c = true) (l₂ : List Char) :
    (l₁ ++ l₂).takeWhile p = l₁ ++ l₂.takeWhile p := by
  induction l₁ with
  | nil => simp
  | cons a as ih =>
    rw [List.cons_append, List.takeWhile_cons, h a (by simp)]
    simp only [if_true, List.cons_append]
    rw [ih (fun c hc => h c (by simp [hc]))]

theorem dropWhile_append_all {p : Char → Bool} {l₁ : List Char}
    (h : ∀ c ∈ l₁, p c = true) (l₂ : List Char) :
    (l₁ ++ l₂).dropWhile p = l₂.dropWhile p := by
  induction l₁ with
  | nil => simp
  | cons a as ih =>
    rw [List.cons_append, List.dropWhile_cons, h a (by simp)]
    simp only [if_true]
    exact ih (fun c hc => h c (by simp [hc]))

/-! Claims about the classifier on reserved and remote-prefixed tokens. -/

/-- Claim C1, counterexample: the token pr/0 does not fail; the classifier
silently accepts it as a pull request numbered zero, because the digit class
of the pattern admits the digit zero and the error of the integer conversion
is discarded.  Likewise the empty token does not fail: it flows through the
default branch as a branch-kind reference with an empty local name. -/
theorem classify_reserved_tokens_cex :
    classify "pr/0" = .ok (.pullRequest 0 "") ∧
      classify "" = .ok (.localOrRemoteBranch "" "") :=
  ⟨rfl, rfl⟩

/-- Claim C1, amended: of the three inputs only pr/abc fails (with the
invalid PR syntax error); pr/0 is classified as a pull request with number
zero and empty hint, and the empty string is classified as a branch-kind
reference with empty local name and empty start point. -/
theorem classify_reserved_tokens_actual :
    classify "pr/abc" = .error .invalidPR ∧
      classify "pr/0" = .ok (.pullRequest 0 "") ∧
      classify "" = .ok (.localOrRemoteBranch "" "") :=
  ⟨rfl, rfl, rfl⟩

/-- Claim C9: the bare token origin/ is still decomposed by the classifier:
the local name is the empty string and the start point is the token itself,
because the code checks only for the prefix and never requires content after
it. -/
theorem classify_origin_bare_decomposition :
    classify "origin/" = .ok (.localOrRemoteBranch "" "origin/") :=
  rfl

/-- Claim C5: a reference consisting of origin/ followed by a non-empty
suffix that does not itself start with origin/ classifies as a branch-kind
reference whose local name is the suffix and whose start point is the
original reference unchanged. -/
theorem classify_origin_decomposition (X : String) (h1 : X ≠ "")
    (h2 : "origin/".data.isPrefixOf X.data = false) :
    classify ("origin/" ++ X) = .ok (.localOrRemoteBranch X ("origin/" ++ X)) := by
  have hd : ("origin/" ++ X).data = 'o' :: 'r' :: 'i' :: 'g' :: 'i' :: 'n' :: '/' :: X.data := rfl
  have hpr : "pr/".data.isPrefixOf ("origin/" ++ X).data = false := by
    rw [hd]
    exact isPrefixOf_cons_ne (by decide) _ _
  have hor : "origin/".data.isPrefixOf ("origin/" ++ X).data = true := by
    have hd2 : ("origin/" ++ X).data = "origin/".data ++ X.data := rfl
    rw [hd2]
    exact isPrefixOf_append_self _ _
  have hdrop : (("origin/" ++ X).data.drop "origin/".length) = X.data := by
    have hd2 : ("origin/" ++ X).data = "origin/".data ++ X.data := rfl
    have hl : "origin/".length = "origin/".data.length := rfl
    rw [hd2, hl, List.drop_left]
  simp only [classify, normalizeRemoteBranch, hpr, hor, Bool.false_eq_true, if_false, if_true,
    hdrop]

/-- Witness for claim C5 at the suffix develop. -/
theorem classify_origin_decomposition_witness :
    classify ("origin/" ++ "develop") =
      .ok (.localOrRemoteBranch "develop" ("origin/" ++ "develop")) :=
  classify_origin_decomposition "develop" (by decide) (by decide)

/-- Claim C6: a non-empty reference starting neither with pr/ nor with
origin/ classifies as a branch-kind reference with the reference itself as
local name and an empty start point. -/
theorem classify_default_verbatim (ref : String) (h0 : ref ≠ "")
    (h1 : "pr/".data.isPrefixOf ref.data = false)
    (h2 : "origin/".data.isPrefixOf ref.data = false) :
    classify ref = .ok (.localOrRemoteBranch ref "") := by
  simp only [classify, normalizeRemoteBranch, h1, h2, Bool.false_eq_true, if_false]

/-- Witness for claim C6 at a slashed local branch name. -/
theorem classify_default_verbatim_witness :
    classify "feature/auth" = .ok (.localOrRemoteBranch "feature/auth" "") :=
  classify_default_verbatim "feature/auth" (by decide) (by decide) (by decide)

/-! Facts about the decimal rendering used in the pull request token claims. -/

theorem digitChar_spec (k : Nat) (h : k ≤ 9) :
    (digitChar k).isDigit = true ∧ (digitChar k).toNat - 48 = k ∧
      digitChar k ≠ '/' ∧ digitChar k ≠ '\n' := by
  interval_cases k <;> exact ⟨by decide, by decide, by decide, by decide⟩

theorem natDecimalFuel_append :
    ∀ (fuel n : Nat) (acc : List Char), n < fuel →
      natDecimalFuel fuel n acc = natDecimalFuel fuel n [] ++ acc := by
  intro fuel
  induction fuel with
  | zero => intro n acc h; omega
  | succ f ih =>
    intro n acc h
    by_cases h10 : n < 10
    · simp [natDecimalFuel, h10]
    · have hdiv : n / 10 < n := Nat.div_lt_self (by omega) (by omega)
      have hlt : n / 10 < f := by omega
      simp only [natDecimalFuel, if_neg h10]
      rw [ih (n / 10) (digitChar (n % 10) :: acc) hlt,
        ih (n / 10) [digitChar (n % 10)] hlt]
      simp

theorem natDecimalFuel_ne_nil (fuel n : Nat) (h : n < fuel) :
    natDecimalFuel fuel n [] ≠ [] := by
  cases fuel with
  | zero => omega
  | succ f =>
    by_cases h10 : n < 10
    · simp [natDecimalFuel, h10]
    · have hdiv : n / 10 < n := Nat.div_lt_self (by omega) (by omega)
      simp only [natDecimalFuel, if_neg h10]
      rw [natDecimalFuel_append f (n / 10) [digitChar (n % 10)] (by omega)]
      simp

theorem natDecimalFuel_digits :
    ∀ (fuel n : Nat), n < fuel → ∀ c ∈ natDecimalFuel fuel n [], c.isDigit = true := by
  intro fuel
  induction fuel with
  | zero => intro n h; omega
  | succ f ih =>
    intro n h c hc
    by_cases h10 : n < 10
    · simp [natDecimalFuel, h10] at hc
      rw [hc]
      exact (digitChar_spec (n % 10) (by omega)).1
    · have hdiv : n / 10 < n := Nat.div_lt_self (by omega) (by omega)
      have hlt : n / 10 < f := by omega
      simp only [natDecimalFuel, if_neg h10] at hc
      rw [natDecimalFuel_append f (n / 10) [digitChar (n % 10)] hlt] at hc
      rcases List.mem_append.mp hc with h1 | h1
      · exact ih (n / 10) hlt c h1
      · simp at h1
        rw [h1]
        exact (digitChar_spec (n % 10) (by omega)).1

theorem digitsVal_append (a : Nat) (l₁ l₂ : List Char) :
    digitsVal a (l₁ ++ l₂) = digitsVal (digitsVal a l₁) l₂ :=
  List.foldl_append _ _ _ _

theorem natDecimalFuel_val :
    ∀ (fuel n : Nat), n < fuel → ∀ a : Nat,
      digitsVal a (natDecimalFuel fuel n []) =
        a * 10 ^ (natDecimalFuel fuel n []).length + n := by
  intro fuel
  induction fuel with
  | zero => intro n h; omega
  | succ f ih =>
    intro n h a
    by_cases h10 : n < 10
    · simp only [natDecimalFuel, if_pos h10]
      have hk := (digitChar_spec (n % 10) (by omega)).2.1
      have hm : n % 10 = n := Nat.mod_eq_of_lt h10
      have hgoal : digitsVal a [digitChar (n % 10)] =
          10 * a + ((digitChar (n % 10)).toNat - 48) := rfl
      rw [hgoal, hk, hm]
      simp only [List.length_cons, List.length_nil, zero_add, pow_one]
      omega
    · have hdiv : n / 10 < n := Nat.div_lt_self (by omega) (by omega)
      have hlt : n / 10 < f := by omega
      have hk := (digitChar_spec (n % 10) (by omega)).2.1
      simp only [natDecimalFuel, if_neg h10]
      rw [natDecimalFuel_append f (n / 10) [digitChar (n % 10)] hlt]
      rw [digitsVal_append, ih (n / 10) hlt a]
      have hone : digitsVal (a * 10 ^ (natDecimalFuel f (n / 10) []).length + n / 10)
          [digitChar (n % 10)] =
          10 * (a * 10 ^ (natDecimalFuel f (n / 10) []).length + n / 10) +
            ((digitChar (n % 10)).toNat - 48) := rfl
      rw [hone, hk]
      have hlen : (natDecimalFuel f (n / 10) [] ++ [digitChar (n % 10)]).length =
          (natDecimalFuel f (n / 10) []).length + 1 := by simp
      rw [hlen, pow_succ]
      have hdm : 10 * (n / 10) + n % 10 = n := Nat.div_add_mod n 10
      set L := (natDecimalFuel f (n / 10) []).length
      calc 10 * (a * 10 ^ L + n / 10) + n % 10
          = a * (10 ^ L * 10) + (10 * (n / 10) + n % 10) := by ring
        _ = a * (10 ^ L * 10) + n := by rw [hdm]

theorem natDecimal_val (n : Nat) : digitsVal 0 (natDecimal n).data = n := by
  have h := natDecimalFuel_val (n + 1) n (Nat.lt_succ_self n) 0
  simpa [natDecimal] using h

theorem goAtoi_natDecimal (n : Nat) (h : n ≤ 9223372036854775807) :
    goAtoi (natDecimal n).data = n := by
  unfold goAtoi
  rw [natDecimal_val]
  simp [h]

/-! Core lemmas about classifying well-formed pull request tokens. -/

theorem classify_mk_pr_digits (ds : List Char) (hds : ds ≠ [])
    (hdig : ∀ c ∈ ds, c.isDigit = true) :
    classify (String.mk ('p' :: 'r' :: '/' :: ds)) =
      .ok (.pullRequest (goAtoi ds) "") := by
  have hpre : "pr/".data.isPrefixOf ('p' :: 'r' :: '/' :: ds) = true := by
    have : 'p' :: 'r' :: '/' :: ds = "pr/".data ++ ds := rfl
    rw [this]
    exact isPrefixOf_append_self _ _
  have hdrop : List.drop 3 ('p' :: 'r' :: '/' :: ds) = ds := rfl
  have htake : ds.takeWhile Char.isDigit = ds := takeWhile_all hdig
  have hdrop2 : ds.dropWhile Char.isDigit = [] := dropWhile_all hdig
  have hne : ds.isEmpty = false := by
    cases ds with
    | nil => exact absurd rfl hds
    | cons a as => rfl
  simp only [classify, prParse, hpre, if_true, hdrop, htake, hdrop2, hne,
    Bool.false_eq_true, if_false]

theorem classify_mk_pr_digits_hint (ds r : List Char) (hds : ds ≠ [])
    (hdig : ∀ c ∈ ds, c.isDigit = true) (hr : r ≠ []) (hnl : '\n' ∉ r) :
    classify (String.mk ('p' :: 'r' :: '/' :: (ds ++ '/' :: r))) =
      .ok (.pullRequest (goAtoi ds) (String.mk r)) := by
  have hpre : "pr/".data.isPrefixOf ('p' :: 'r' :: '/' :: (ds ++ '/' :: r)) = true := by
    have : 'p' :: 'r' :: '/' :: (ds ++ '/' :: r) = "pr/".data ++ (ds ++ '/' :: r) := rfl
    rw [this]
    exact isPrefixOf_append_self _ _
  have hdrop : List.drop 3 ('p' :: 'r' :: '/' :: (ds ++ '/' :: r)) = ds ++ '/' :: r := rfl
  have htake : (ds ++ '/' :: r).takeWhile Char.isDigit = ds := by
    rw [takeWhile_append_all hdig, List.takeWhile_cons]
    simp
  have hdrop2 : (ds ++ '/' :: r).dropWhile Char.isDigit = '/' :: r := by
    rw [dropWhile_append_all hdig, List.dropWhile_cons]
    simp
  have hne : ds.isEmpty = false := by
    cases ds with
    | nil => exact absurd rfl hds
    | cons a as => rfl
  simp only [classify, prParse, hpre, if_true, hdrop, htake, hdrop2, hne,
    Bool.false_eq_true, if_false]
  simp [hr, hnl]

theorem str_data_append (a b : String) : (a ++ b).data = a.data ++ b.data := rfl

theorem str_data_mk (l : List Char) : (String.mk l).data = l := rfl

/-- Claim C7, counterexample: the name x-newline-y is non-empty and
slash-free, yet the token built from it is rejected with the invalid PR
syntax error, because the dot of the Go pattern does not match a newline.
The claim as stated therefore fails at this input, where it predicts a
successful pull request classification. -/
theorem classify_pr_token_cex :
    classify ("pr/" ++ natDecimal 7 ++ "/" ++ "x\ny") = .error .invalidPR := by
  rfl

/-- Claim C7, amended: for every positive number representable in a signed
64-bit integer and every name that is empty or both slash-free and
newline-free, the token made of pr/ followed by the decimal digits of the
number, with a slash and the name appended when the name is non-empty,
classifies as a pull request with that number and that name as the custom
directory hint.  The 64-bit bound is forced by the ignored range error of
the integer conversion, which clamps larger digit strings; the newline
restriction is forced by the counterexample. -/
theorem classify_pr_token_parses (n : Nat) (name : String)
    (hn : 0 < n) (hmax : n ≤ 9223372036854775807)
    (hname : ∀ c ∈ name.data, c ≠ '/' ∧ c ≠ '\n') :
    classify ("pr/" ++ natDecimal n ++ (if name = "" then "" else "/" ++ name)) =
      .ok (.pullRequest n name) := by
  by_cases hempty : name = ""
  · rw [if_pos hempty, hempty]
    have htok : ("pr/" ++ natDecimal n ++ "" : String) =
        String.mk ('p' :: 'r' :: '/' :: (natDecimal n).data) := by
      apply String.ext
      simp [str_data_append, str_data_mk, show "pr/".data = ['p', 'r', '/'] from rfl,
        show ("" : String).data = [] from rfl]
    rw [htok, classify_mk_pr_digits (natDecimal n).data
      (natDecimalFuel_ne_nil (n + 1) n (Nat.lt_succ_self n))
      (natDecimalFuel_digits (n + 1) n (Nat.lt_succ_self n)),
      goAtoi_natDecimal n hmax]
  · rw [if_neg hempty]
    have htok : ("pr/" ++ natDecimal n ++ ("/" ++ name) : String) =
        String.mk ('p' :: 'r' :: '/' :: ((natDecimal n).data ++ '/' :: name.data)) := by
      apply String.ext
      simp [str_data_append, str_data_mk, show "pr/".data = ['p', 'r', '/'] from rfl,
        show "/".data = ['/'] from rfl]
    have hrne : name.data ≠ [] := by
      intro hd
      exact hempty (String.ext hd)
    have hnl : '\n' ∉ name.data := fun hm => ((hname '\n' hm).2) rfl
    rw [htok, classify_mk_pr_digits_hint (natDecimal n).data name.data
      (natDecimalFuel_ne_nil (n + 1) n (Nat.lt_succ_self n))
      (natDecimalFuel_digits (n + 1) n (Nat.lt_succ_self n)) hrne hnl,
      goAtoi_natDecimal n hmax]

/-- Witness for the amended claim C7 at number 42 and name my-review. -/
theorem classify_pr_token_parses_witness :
    classify ("pr/" ++ natDecimal 42 ++
        (if ("my-review" : String) = "" then "" else "/" ++ "my-review")) =
      .ok (.pullRequest 42 "my-review") :=
  classify_pr_token_parses 42 "my-review" (by decide) (by decide) (by decide)

/-- Claim C10, counterexample: the remainder a-newline-b after the second
slash is non-empty, yet the token is rejected with the invalid PR syntax
error instead of being accepted with that remainder as hint, because the dot
of the Go pattern does not match a newline. -/
theorem classify_pr_deep_hint_cex :
    classify ("pr/" ++ String.mk ['4', '2'] ++ "/" ++ "a\nb") = .error .invalidPR := by
  rfl

/-- Claim C10, amended: for every non-empty digit list and every non-empty
newline-free remainder, possibly containing slashes, the token made of pr/
followed by the digits, a slash and the remainder classifies as a pull
request whose custom directory hint is the entire remainder, slashes
included, and whose number is the clamped integer value of the digits.  The
newline restriction is forced by the counterexample. -/
theorem classify_pr_deep_hint_parses (ds : List Char) (rest : String)
    (hds : ds ≠ []) (hdig : ∀ c ∈ ds, c.isDigit = true)
    (hrest : rest ≠ "") (hnl : '\n' ∉ rest.data) :
    classify ("pr/" ++ String.mk ds ++ "/" ++ rest) =
      .ok (.pullRequest (goAtoi ds) rest) := by
  have htok : ("pr/" ++ String.mk ds ++ "/" ++ rest : String) =
      String.mk ('p' :: 'r' :: '/' :: (ds ++ '/' :: rest.data)) := by
    apply String.ext
    simp [str_data_append, str_data_mk, show "pr/".data = ['p', 'r', '/'] from rfl,
      show "/".data = ['/'] from rfl]
  have hrne : rest.data ≠ [] := by
    intro hd
    exact hrest (String.ext hd)
  rw [htok, classify_mk_pr_digits_hint ds rest.data hds hdig hrne hnl]

/-- Witness for the amended claim C10 at the token with digits 42 and the
slashed remainder a/b. -/
theorem classify_pr_deep_hint_parses_witness :
    classify ("pr/" ++ String.mk ['4', '2'] ++ "/" ++ "a/b") =
      .ok (.pullRequest (goAtoi ['4', '2']) "a/b") :=
  classify_pr_deep_hint_parses ['4', '2'] "a/b" (by decide) (by decide)
    (by decide) (by decide)

/-! Claims about the PR resolver tiers. -/

/-- Claim C2: whenever the gh metadata tier fully succeeds (tool present,
slug resolved, metadata query returning a non-empty head branch name, fetch
of the head-named refspec succeeding), the resolver returns exactly that head
branch name, for every caller-supplied desired name, including names that
differ from the head branch name. -/
theorem fetchPR_gh_success_returns_head_name (env : Env) (n : Nat)
    (desired slug h : String)
    (hgh : env.ghOnPath = true)
    (hslug : getRepoSlug env = .ok slug)
    (hmeta : env.prHead n slug = some h)
    (hne : h ≠ "")
    (hfetch : env.fetch ("pull/" ++ Nat.repr n ++ "/head:" ++ h) = .success) :
    FetchPR env n desired = .ok h := by
  have hgtier : fetchPRWithGH env n desired = .ok h := by
    simp only [fetchPRWithGH, hgh, if_true, hslug, hmeta, hne, hfetch, if_false]
  simp only [FetchPR, hgtier]

/-- Witness for claim C2: in the concrete environment the head branch name
of PR 42 differs from the desired name pr-42 and wins. -/
theorem fetchPR_gh_success_returns_head_name_witness :
    FetchPR envGhOk 42 "pr-42" = .ok "feature/contributor-fix" :=
  fetchPR_gh_success_returns_head_name envGhOk 42 "pr-42" "acme/widgets"
    "feature/contributor-fix" rfl rfl rfl (by decide) rfl

/-- Claim C3: whenever the gh metadata tier fails for any reason and the
primary refspec fetch succeeds, the resolver returns exactly the
caller-supplied desired name. -/
theorem fetchPR_gh_failure_primary_returns_desired (env : Env) (n : Nat)
    (desired : String)
    (hgh : ∃ e, fetchPRWithGH env n desired = .error e)
    (hfetch : env.fetch (primaryRefspec n desired) = .success) :
    FetchPR env n desired = .ok desired := by
  obtain ⟨e, he⟩ := hgh
  simp only [FetchPR, he, fetchPRWithRefspec, hfetch]

/-- Witness for claim C3: with the gh tool absent and the primary refspec
fetch succeeding, PR 42 resolves to the desired name pr-42. -/
theorem fetchPR_gh_failure_primary_returns_desired_witness :
    FetchPR envRefspecOk 42 "pr-42" = .ok "pr-42" :=
  fetchPR_gh_failure_primary_returns_desired envRefspecOk 42 "pr-42"
    ⟨"gh CLI not found", rfl⟩ rfl

/-- Claim C4: the resolver surfaces an error precisely when the gh tier
failed (so that the refspec tier actually runs) and both its fetch attempts
fail, and the surfaced message carries the combined diagnostic output of the
last (alternate) attempt; any failure inside the gh tier alone is never
surfaced.  The phrase both refspec attempts fail is read operationally: the
attempts exist only after the gh tier has failed, which is why the gh tier
conjunct appears on the right-hand side. -/
theorem fetchPR_error_characterization (env : Env) (n : Nat) (desired : String) :
    ((∃ e, FetchPR env n desired = .error e) ↔
      ((∃ e, fetchPRWithGH env n desired = .error e) ∧
       (∃ o, env.fetch (primaryRefspec n desired) = .failure o) ∧
       (∃ o, env.fetch (alternateRefspec n desired) = .failure o))) ∧
    (∀ e o, FetchPR env n desired = .error e →
       env.fetch (alternateRefspec n desired) = .failure o →
       e = "failed to fetch PR: " ++ o) := by
  cases hg : fetchPRWithGH env n desired with
  | ok b =>
    have hF : FetchPR env n desired = .ok b := by simp only [FetchPR, hg]
    refine ⟨⟨?_, ?_⟩, ?_⟩
    · rintro ⟨e, he⟩
      rw [hF] at he
      cases he
    · rintro ⟨⟨e, he⟩, -, -⟩
      cases he
    · intro e o he _
      rw [hF] at he
      cases he
  | error eg =>
    have hF : FetchPR env n desired = fetchPRWithRefspec env n desired := by
      simp only [FetchPR, hg]
    cases hp : env.fetch (primaryRefspec n desired) with
    | success =>
      have hR : fetchPRWithRefspec env n desired = .ok desired := by
        simp only [fetchPRWithRefspec, hp]
      refine ⟨⟨?_, ?_⟩, ?_⟩
      · rintro ⟨e, he⟩
        rw [hF, hR] at he
        cases he
      · rintro ⟨-, ⟨o, ho⟩, -⟩
        cases ho
      · intro e o he _
        rw [hF, hR] at he
        cases he
    | failure o1 =>
      cases ha : env.fetch (alternateRefspec n desired) with
      | success =>
        have hR : fetchPRWithRefspec env n desired = .ok desired := by
          simp only [fetchPRWithRefspec, hp, ha]
        refine ⟨⟨?_, ?_⟩, ?_⟩
        · rintro ⟨e, he⟩
          rw [hF, hR] at he
          cases he
        · rintro ⟨-, -, ⟨o, ho⟩⟩
          cases ho
        · intro e o he hfo
          cases hfo
      | failure o2 =>
        have hR : fetchPRWithRefspec env n desired =
            .error ("failed to fetch PR: " ++ o2) := by
          simp only [fetchPRWithRefspec, hp, ha]
        refine ⟨⟨?_, ?_⟩, ?_⟩
        · intro _
          exact ⟨⟨eg, rfl⟩, ⟨o1, rfl⟩, ⟨o2, rfl⟩⟩
        · intro _
          exact ⟨"failed to fetch PR: " ++ o2, by rw [hF, hR]⟩
        · intro e o he hfo
          rw [hF, hR] at he
          injection hfo with ho2
          injection he with he2
          rw [← he2, ho2]

/-- Witness for claim C4 in the environment where every tier fails. -/
theorem fetchPR_error_characterization_witness :
    ((∃ e, FetchPR envAllFail 7 "pr-7" = .error e) ↔
      ((∃ e, fetchPRWithGH envAllFail 7 "pr-7" = .error e) ∧
       (∃ o, envAllFail.fetch (primaryRefspec 7 "pr-7") = .failure o) ∧
       (∃ o, envAllFail.fetch (alternateRefspec 7 "pr-7") = .failure o))) ∧
    (∀ e o, FetchPR envAllFail 7 "pr-7" = .error e →
       envAllFail.fetch (alternateRefspec 7 "pr-7") = .failure o →
       e = "failed to fetch PR: " ++ o) :=
  fetchPR_error_characterization envAllFail 7 "pr-7"

/-! Helper lemmas for the slug resolution claims. -/

theorem goTrimSpace_eq_self {s : String} {c0 c1 : Char} {t0 t1 : List Char}
    (h0 : s.data = c0 :: t0) (hc0 : goIsSpace c0 = false)
    (h1 : s.data.reverse = c1 :: t1) (hc1 : goIsSpace c1 = false) :
    goTrimSpace s = s := by
  unfold goTrimSpace
  rw [h0, List.dropWhile_cons, hc0]
  simp only [Bool.false_eq_true, if_false]
  rw [← h0, h1, List.dropWhile_cons, hc1]
  simp only [Bool.false_eq_true, if_false]
  have h3 := congrArg List.reverse h1
  rw [List.reverse_reverse] at h3
  rw [← h3]

theorem strTrimSuffix_append_git (l : List Char) :
    strTrimSuffix (String.mk (l ++ ".git".data)) ".git" = String.mk l := by
  unfold strTrimSuffix
  have hs : ".git".data.isSuffixOf (String.mk (l ++ ".git".data)).data = true := by
    show ".git".data.isSuffixOf (l ++ ".git".data) = true
    exact isSuffixOf_append_self _ _
  simp only [hs, eq_self_iff_true, if_true, str_data_mk]
  have hlen : (l ++ ".git".data).length - ".git".data.length = l.length := by
    simp
  rw [hlen, List.take_left]

theorem strTrimSuffix_no_git (s : String)
    (h : ".git".data.isSuffixOf s.data = false) :
    strTrimSuffix s ".git" = s := by
  unfold strTrimSuffix
  simp only [h, Bool.false_eq_true, if_false]

theorem slugChain_git (M : List Char) :
    slugChain (String.mk ("git@github.com:".data ++ M)) = .ok (String.mk M) := by
  have hp : "git@github.com:".data.isPrefixOf
      (String.mk ("git@github.com:".data ++ M)).data = true := by
    show "git@github.com:".data.isPrefixOf ("git@github.com:".data ++ M) = true
    exact isPrefixOf_append_self _ _
  simp only [slugChain, hp, eq_self_iff_true, if_true, str_data_mk]
  rw [show (15 : Nat) = ("git@github.com:".data).length from rfl, List.drop_left]

theorem slugChain_https (M : List Char) :
    slugChain (String.mk ("https://github.com/".data ++ M)) = .ok (String.mk M) := by
  have hg : "git@github.com:".data.isPrefixOf
      (String.mk ("https://github.com/".data ++ M)).data = false := by
    show "git@github.com:".data.isPrefixOf ("https://github.com/".data ++ M) = false
    have e1 : "git@github.com:".data = 'g' :: "it@github.com:".data := rfl
    have e2 : "https://github.com/".data ++ M =
        'h' :: ("ttps://github.com/".data ++ M) := rfl
    rw [e1, e2]
    exact isPrefixOf_cons_ne (by decide) _ _
  have hp : "https://github.com/".data.isPrefixOf
      (String.mk ("https://github.com/".data ++ M)).data = true := by
    show "https://github.com/".data.isPrefixOf ("https://github.com/".data ++ M) = true
    exact isPrefixOf_append_self _ _
  simp only [slugChain, hg, Bool.false_eq_true, if_false, hp, eq_self_iff_true,
    if_true, str_data_mk]
  rw [show (19 : Nat) = ("https://github.com/".data).length from rfl, List.drop_left]

theorem https_not_prefix_of_http_tail (l : List Char) :
    "https://github.com/".data.isPrefixOf
      ('h' :: 't' :: 't' :: 'p' :: ':' :: l) = false := by
  have e : "https://github.com/".data =
      'h' :: 't' :: 't' :: 'p' :: 's' :: "://github.com/".data := rfl
  have hb : (('s' : Char) == ':') = false := by decide
  rw [e]
  simp [List.isPrefixOf, hb]

theorem slugChain_http (M : List Char) :
    slugChain (String.mk ("http://github.com/".data ++ M)) = .ok (String.mk M) := by
  have hg : "git@github.com:".data.isPrefixOf
      (String.mk ("http://github.com/".data ++ M)).data = false := by
    show "git@github.com:".data.isPrefixOf ("http://github.com/".data ++ M) = false
    have e1 : "git@github.com:".data = 'g' :: "it@github.com:".data := rfl
    have e2 : "http://github.com/".data ++ M =
        'h' :: ("ttp://github.com/".data ++ M) := rfl
    rw [e1, e2]
    exact isPrefixOf_cons_ne (by decide) _ _
  have hs : "https://github.com/".data.isPrefixOf
      (String.mk ("http://github.com/".data ++ M)).data = false := by
    show "https://github.com/".data.isPrefixOf ("http://github.com/".data ++ M) = false
    have e2 : "http://github.com/".data ++ M =
        'h' :: 't' :: 't' :: 'p' :: ':' :: ("//github.com/".data ++ M) := rfl
    rw [e2]
    exact https_not_prefix_of_http_tail _
  have hp : "http://github.com/".data.isPrefixOf
      (String.mk ("http://github.com/".data ++ M)).data = true := by
    show "http://github.com/".data.isPrefixOf ("http://github.com/".data ++ M) = true
    exact isPrefixOf_append_self _ _
  simp only [slugChain, hg, hs, Bool.false_eq_true, if_false, hp, eq_self_iff_true,
    if_true, str_data_mk]
  rw [show (18 : Nat) = ("http://github.com/".data).length from rfl, List.drop_left]

theorem slash_split {owner : List Char} (ho : '/' ∉ owner) :
    ∀ {repo l : List Char}, owner ++ '/' :: repo = l →
      '/' :: repo = l.dropWhile (fun c => c != '/') := by
  induction owner with
  | nil =>
    intro repo l h
    rw [← h]
    simp [List.dropWhile_cons]
  | cons a as ih =>
    intro repo l h
    have ha : a ≠ '/' := fun e => ho (by rw [e]; simp)
    have hnotin : '/' ∉ as := fun hm => ho (by simp [hm])
    rw [← h]
    simp only [List.cons_append, List.dropWhile_cons]
    have hb : (a != '/') = true := by simp [ha]
    simp only [hb, if_true]
    exact ih hnotin rfl

/-- Claim C8, counterexample: the remote URL with prefix https and remainder
a/b/c is accepted by slug resolution with the unvalidated slug a/b/c, yet it
is of none of the three claimed owner-slash-repository shapes, because the
remainder contains two slashes and is too short to carry a trailing .git. -/
theorem getRepoSlug_unvalidated_cex :
    getRepoSlug envSlugDeep = .ok "a/b/c" ∧
      ¬ githubShape "https://github.com/a/b/c" := by
  refine ⟨rfl, ?_⟩
  rintro (⟨hpre, -⟩ | ⟨-, owner, repo, ho1, hr1, ho, hr, hcase | hcase⟩ | ⟨hpre, -⟩)
  · exact absurd hpre (by decide)
  · have hd : "https://github.com/a/b/c".data.drop "https://github.com/".data.length =
        ['a', '/', 'b', '/', 'c'] := rfl
    rw [hd] at hcase
    have hsplit := slash_split ho hcase.symm
    have heval : (['a', '/', 'b', '/', 'c'] : List Char).dropWhile
        (fun c => c != '/') = ['/', 'b', '/', 'c'] := rfl
    rw [heval] at hsplit
    injection hsplit with hhead hrepo
    rw [hrepo] at hr
    exact hr (by decide)
  · have hd : "https://github.com/a/b/c".data.drop "https://github.com/".data.length =
        ['a', '/', 'b', '/', 'c'] := rfl
    rw [hd] at hcase
    have hlen := congrArg List.length hcase
    simp [List.length_append] at hlen
    have hol : 0 < owner.length := List.length_pos.mpr ho1
    have hrl : 0 < repo.length := List.length_pos.mpr hr1
    omega
  · exact absurd hpre (by decide)

/-- Claim C8, amended: slug resolution first trims whitespace and one
trailing .git from the remote URL, then succeeds exactly when the result
starts with one of the three recognized prefixes, returning everything after
the prefix verbatim without validating it.  In particular every URL of one
of the three claimed owner-slash-repository shapes (with slash-free
non-empty parts, no trailing whitespace and, for the bare form, no
misleading trailing .git) yields the owner/repository slug, and every URL
whose trimmed form carries none of the three prefixes fails, advancing
resolution to the refspec tiers; but the counterexample shows additional
URLs outside the claimed shapes are accepted as well, so the claimed
equivalence with those shapes does not hold. -/
theorem getRepoSlug_actual (env : Env) (url : String)
    (hre : env.remoteURL = some url) :
    (∀ pre : String,
      (pre = "git@github.com:" ∨ pre = "https://github.com/" ∨
        pre = "http://github.com/") →
      ∀ owner repo : List Char, owner ≠ [] → repo ≠ [] →
        '/' ∉ owner → '/' ∉ repo → (∀ c ∈ repo, goIsSpace c = false) →
        ((url.data = (pre.data ++ owner ++ '/' :: repo) ++ ".git".data) ∨
         (url.data = pre.data ++ owner ++ '/' :: repo ∧
            ".git".data.isSuffixOf url.data = false)) →
        getRepoSlug env = .ok (String.mk (owner ++ '/' :: repo))) ∧
    ("git@github.com:".data.isPrefixOf
        (strTrimSuffix (goTrimSpace url) ".git").data = false →
     "https://github.com/".data.isPrefixOf
        (strTrimSuffix (goTrimSpace url) ".git").data = false →
     "http://github.com/".data.isPrefixOf
        (strTrimSuffix (goTrimSpace url) ".git").data = false →
     getRepoSlug env =
       .error ("unsupported remote URL format: " ++
         strTrimSuffix (goTrimSpace url) ".git")) := by
  have hget : getRepoSlug env = repoSlugOfURL url := by
    simp only [getRepoSlug, hre]
  constructor
  · intro pre hpre owner repo ho1 hr1 hos hrs hsp hurl
    rw [hget]
    rcases hurl with hurl | ⟨hurl, hnosuf⟩
    · have h1 : url.data.reverse =
          't' :: ('i' :: 'g' :: '.' :: (pre.data ++ owner ++ '/' :: repo).reverse) := by
        rw [hurl, List.reverse_append]
        rfl
      rcases hpre with rfl | rfl | rfl
      · have h0 : url.data = 'g' ::
            (("it@github.com:".data ++ owner ++ '/' :: repo) ++ ".git".data) := hurl
        have htrim : goTrimSpace url = url :=
          goTrimSpace_eq_self h0 (by decide) h1 (by decide)
        have hu : url = String.mk
            (("git@github.com:".data ++ owner ++ '/' :: repo) ++ ".git".data) :=
          String.ext hurl
        simp only [repoSlugOfURL]
        rw [htrim, hu, strTrimSuffix_append_git,
          List.append_assoc "git@github.com:".data owner ('/' :: repo)]
        exact slugChain_git _
      · have h0 : url.data = 'h' ::
            (("ttps://github.com/".data ++ owner ++ '/' :: repo) ++ ".git".data) := hurl
        have htrim : goTrimSpace url = url :=
          goTrimSpace_eq_self h0 (by decide) h1 (by decide)
        have hu : url = String.mk
            (("https://github.com/".data ++ owner ++ '/' :: repo) ++ ".git".data) :=
          String.ext hurl
        simp only [repoSlugOfURL]
        rw [htrim, hu, strTrimSuffix_append_git,
          List.append_assoc "https://github.com/".data owner ('/' :: repo)]
        exact slugChain_https _
      · have h0 : url.data = 'h' ::
            (("ttp://github.com/".data ++ owner ++ '/' :: repo) ++ ".git".data) := hurl
        have htrim : goTrimSpace url = url :=
          goTrimSpace_eq_self h0 (by decide) h1 (by decide)
        have hu : url = String.mk
            (("http://github.com/".data ++ owner ++ '/' :: repo) ++ ".git".data) :=
          String.ext hurl
        simp only [repoSlugOfURL]
        rw [htrim, hu, strTrimSuffix_append_git,
          List.append_assoc "http://github.com/".data owner ('/' :: repo)]
        exact slugChain_http _
    · obtain ⟨cr, tr, hrev⟩ : ∃ c t, repo.reverse = c :: t := by
        cases hrr : repo.reverse with
        | nil =>
          have h4 := congrArg List.reverse hrr
          rw [List.reverse_reverse] at h4
          exact absurd h4 hr1
        | cons c t => exact ⟨c, t, rfl⟩
      have hcrmem : cr ∈ repo :=
        List.mem_reverse.mp (by rw [hrev]; exact List.mem_cons_self _ _)
      have hcr : goIsSpace cr = false := hsp cr hcrmem
      have h1 : url.data.reverse =
          cr :: ((tr ++ ['/']) ++ (owner.reverse ++ pre.data.reverse)) := by
        rw [hurl, List.reverse_append, List.reverse_append, List.reverse_cons, hrev]
        rfl
      have hsufe : strTrimSuffix url ".git" = url := strTrimSuffix_no_git url hnosuf
      rcases hpre with rfl | rfl | rfl
      · have h0 : url.data = 'g' ::
            ("it@github.com:".data ++ owner ++ '/' :: repo) := hurl
        have htrim : goTrimSpace url = url :=
          goTrimSpace_eq_self h0 (by decide) h1 hcr
        have hu : url = String.mk
            ("git@github.com:".data ++ owner ++ '/' :: repo) := String.ext hurl
        simp only [repoSlugOfURL]
        rw [htrim, hsufe, hu,
          List.append_assoc "git@github.com:".data owner ('/' :: repo)]
        exact slugChain_git _
      · have h0 : url.data = 'h' ::
            ("ttps://github.com/".data ++ owner ++ '/' :: repo) := hurl
        have htrim : goTrimSpace url = url :=
          goTrimSpace_eq_self h0 (by decide) h1 hcr
        have hu : url = String.mk
            ("https://github.com/".data ++ owner ++ '/' :: repo) := String.ext hurl
        simp only [repoSlugOfURL]
        rw [htrim, hsufe, hu,
          List.append_assoc "https://github.com/".data owner ('/' :: repo)]
        exact slugChain_https _
      · have h0 : url.data = 'h' ::
            ("ttp://github.com/".data ++ owner ++ '/' :: repo) := hurl
        have htrim : goTrimSpace url = url :=
          goTrimSpace_eq_self h0 (by decide) h1 hcr
        have hu : url = String.mk
            ("http://github.com/".data ++ owner ++ '/' :: repo) := String.ext hurl
        simp only [repoSlugOfURL]
        rw [htrim, hsufe, hu,
          List.append_assoc "http://github.com/".data owner ('/' :: repo)]
        exact slugChain_http _
  · intro h1 h2 h3
    rw [hget]
    simp only [repoSlugOfURL, slugChain, h1, h2, h3, Bool.false_eq_true, if_false]

/-- Witness for the amended claim C8 at a well-formed https URL with a
trailing .git. -/
theorem getRepoSlug_actual_witness :
    getRepoSlug envSlugOk =
      .ok (String.mk (['o', 'c', 't', 'o', 'c', 'a', 't'] ++ '/' ::
        ['h', 'e', 'l', 'l', 'o'])) :=
  (getRepoSlug_actual envSlugOk "https://github.com/octocat/hello.git" rfl).1
    "https://github.com/" (Or.inr (Or.inl rfl))
    ['o', 'c', 't', 'o', 'c', 'a', 't'] ['h', 'e', 'l', 'l', 'o']
    (by decide) (by decide) (by decide) (by decide) (by decide)
    (Or.inl (by decide))

end WTM
